import Mathlib

/-!
# go-xmlrpc: the XML-RPC server and its wire types

A shallow embedding of `types.go` and `server.go`.

* The wire types (`ValueType`, `StructType`, `MemberType`, `ParamValue`,
  `ParamsArray`, `MethodCall`, `MethodResponse`, `FaultContainer`) are the Go
  structs, field for field.  A Go pointer field is an `Option`, a Go slice a
  `List`, a Go `int64` an `Int` (with its range where it matters), a Go string
  a `String` of Unicode characters, an `xml.Name` its local name.
* The XML mapping of these structs is fixed by their `xml:"..."` field tags and
  is carried out by Go's `encoding/xml`.  It is embedded here on element trees
  (`Node`): `marshalValueType` and the `unmarshal*` functions follow the field
  tags of `types.go`, the tokenizer that turns the request bytes into an
  element tree is a parameter (`Library.xmlParse`).
* `Server.ServeHTTP`, `Server.sendResponse` and `Server.sendError` return the
  list of effects the Go code performs, in order.
-/

namespace Xmlrpc

/-! ## Wire types (`types.go`) -/

mutual
/-- The struct `ValueType`: the three optional payload fields of a `<value>` element. -/
inductive ValueType where
  | mk (StringValue : String) (IntValue : Int) (StructValue : Option StructType)
/-- The struct `StructType`: the `<member>` list of a `<struct>` element. -/
inductive StructType where
  | mk (Members : List MemberType)
/-- The struct `MemberType`: a `<name>` and a nested `<value>`. -/
inductive MemberType where
  | mk (Name : String) (Value : ValueType)
end

def ValueType.StringValue : ValueType → String
  | .mk s _ _ => s

def ValueType.IntValue : ValueType → Int
  | .mk _ i _ => i

def ValueType.StructValue : ValueType → Option StructType
  | .mk _ _ st => st

def StructType.Members : StructType → List MemberType
  | .mk ms => ms

def MemberType.Name : MemberType → String
  | .mk n _ => n

def MemberType.Value : MemberType → ValueType
  | .mk _ v => v

/-- The Go zero value `ValueType{}`. -/
def ValueType.zero : ValueType := .mk "" 0 none

/-- The Go zero value `MemberType{}`. -/
def MemberType.zero : MemberType := .mk "" ValueType.zero

structure ParamValue where
  Value : ValueType

structure ParamsArray where
  Params : List ParamValue

structure MethodCall where
  XMLName : String
  MethodName : String
  Params : ParamsArray

structure FaultContainer where
  Value : ValueType

structure MethodResponse where
  XMLName : String
  Params : Option ParamsArray
  Fault : Option FaultContainer

/-! ## Element trees -/

/-- A parsed XML element tree: character data or an element with its local name
and its children in document order (comments and processing instructions are
dropped by the tokenizer, entity references are already expanded). -/
inductive Node where
  | text (data : String)
  | elem (name : String) (children : List Node)

/-! ## Scalars: `strconv` and text escaping as used by `encoding/xml` -/

/-- The character range `encoding/xml` accepts (`isInCharacterRange`). -/
def isInCharacterRange (c : Char) : Bool :=
  c.toNat == 0x09 || c.toNat == 0x0A || c.toNat == 0x0D ||
  (0x20 ≤ c.toNat && c.toNat ≤ 0xD7FF) ||
  (0xE000 ≤ c.toNat && c.toNat ≤ 0xFFFD) ||
  (0x10000 ≤ c.toNat && c.toNat ≤ 0x10FFFF)

/-- The character data a reader gets back for text written by `EscapeText`: the
escapes of `&`, `<`, `>`, quotes, tab, newline and carriage return are undone by
the tokenizer, a character outside the XML range has been replaced by U+FFFD. -/
def escapeText (s : String) : String :=
  String.mk (s.data.map fun c => if isInCharacterRange c then c else Char.ofNat 0xFFFD)

/-- Go `unicode.IsSpace`. -/
def isSpace (c : Char) : Bool :=
  (0x09 ≤ c.toNat && c.toNat ≤ 0x0D) || c.toNat == 0x20 || c.toNat == 0x85 ||
  c.toNat == 0xA0 || c.toNat == 0x1680 || (0x2000 ≤ c.toNat && c.toNat ≤ 0x200A) ||
  c.toNat == 0x2028 || c.toNat == 0x2029 || c.toNat == 0x202F ||
  c.toNat == 0x205F || c.toNat == 0x3000

/-- Go `strings.TrimSpace`. -/
def trimSpace (cs : List Char) : List Char :=
  (cs.dropWhile isSpace).rdropWhile isSpace

def digitChar (d : Nat) : Char := Char.ofNat (48 + d)

/-- Decimal digits of a natural number, most significant first. -/
def formatUint (n : Nat) : List Char :=
  if n = 0 then [digitChar 0] else ((Nat.digits 10 n).map digitChar).reverse

/-- Go `strconv.FormatInt(i, 10)`. -/
def formatInt (i : Int) : List Char :=
  if i < 0 then Char.ofNat 45 :: formatUint i.natAbs else formatUint i.natAbs

/-- Go `strconv.ParseUint(s, 10, 64)` before its range check: a non-empty run
of decimal digits. -/
def parseUint (cs : List Char) : Option Nat :=
  if cs = [] then none
  else if cs.all Char.isDigit then some (cs.foldl (fun a c => 10 * a + (c.toNat - 48)) 0)
  else none

/-- Go `strconv.ParseInt(s, 10, 64)`: an optional sign, decimal digits, and the
result must fit a signed 64-bit integer. -/
def parseInt (cs : List Char) : Option Int :=
  match cs with
  | [] => none
  | c :: rest =>
    if c = Char.ofNat 45 then
      (parseUint rest).bind fun n => if n ≤ 2 ^ 63 then some (-(n : Int)) else none
    else if c = Char.ofNat 43 then
      (parseUint rest).bind fun n => if n < 2 ^ 63 then some (n : Int) else none
    else
      (parseUint cs).bind fun n => if n < 2 ^ 63 then some (n : Int) else none

/-! ## Marshalling (`xml:"...,omitempty"` tags of `ValueType`) -/

/-- The children written for a string element: nothing for the empty string. -/
def textNodes (s : String) : List Node :=
  if s = "" then [] else [Node.text s]

mutual
/-- The children of the element written for a `ValueType`: each field in
declaration order under its tag name, a field with the empty value (`""`, `0`,
nil) omitted because of `omitempty`. -/
def marshalValueType : ValueType → List Node
  | .mk s i st =>
    (if s = "" then [] else [Node.elem "string" (textNodes (escapeText s))]) ++
    (if i = 0 then [] else [Node.elem "int" [Node.text (String.mk (formatInt i))]]) ++
    marshalStructValue st
/-- The `StructValue *StructType` field, tag `struct,omitempty`. -/
def marshalStructValue : Option StructType → List Node
  | none => []
  | some (.mk ms) => [Node.elem "struct" (marshalMembers ms)]
/-- The `Members []MemberType` field, tag `member`: one element per member. -/
def marshalMembers : List MemberType → List Node
  | [] => []
  | .mk n v :: rest =>
    Node.elem "member"
      [Node.elem "name" (textNodes (escapeText n)), Node.elem "value" (marshalValueType v)]
      :: marshalMembers rest
end

/-! ## Unmarshalling -/

/-- The depth guard of `encoding/xml` (`maxUnmarshalDepth`). -/
def maxUnmarshalDepth : Nat := 10000

def errUnmarshalDepth : String := "exceeded max depth"

/-- The character data directly inside an element, concatenated; child elements
of a scalar field are skipped. -/
def charData : List Node → List Char
  | [] => []
  | .text d :: rest => d.data ++ charData rest
  | .elem _ _ :: rest => charData rest

/-- Unmarshal into a `string` field.  `fuel` is `maxUnmarshalDepth` minus the
depth of the call. -/
def unmarshalString (fuel : Nat) (children : List Node) : Except String String :=
  if fuel = 0 then .error errUnmarshalDepth else .ok (String.mk (charData children))

/-- Unmarshal into an `int64` field (`copyValue`): empty character data gives 0,
otherwise `strconv.ParseInt` of the trimmed text. -/
def unmarshalInt (fuel : Nat) (children : List Node) : Except String Int :=
  if fuel = 0 then .error errUnmarshalDepth
  else if charData children = [] then .ok 0
  else match parseInt (trimSpace (charData children)) with
    | some i => .ok i
    | none => .error "strconv.ParseInt: parsing failed"

mutual
/-- Unmarshal the children of an element into a `ValueType` that already holds
`dst`: a child named `string`, `int` or `struct` sets that field, any other
child element is skipped, character data is ignored. -/
def unmarshalValueType : Nat → ValueType → List Node → Except String ValueType
  | 0, _, _ => .error errUnmarshalDepth
  | fuel + 1, dst, children =>
    children.foldlM (fun acc child =>
      match child with
      | .text _ => .ok acc
      | .elem name sub =>
        if name = "string" then
          (unmarshalString fuel sub).map fun s => .mk s acc.IntValue acc.StructValue
        else if name = "int" then
          (unmarshalInt fuel sub).map fun i => .mk acc.StringValue i acc.StructValue
        else if name = "struct" then
          (unmarshalStructType fuel (acc.StructValue.getD (.mk [])) sub).map fun st =>
            .mk acc.StringValue acc.IntValue (some st)
        else .ok acc) dst
/-- Unmarshal into the `StructType` behind the `StructValue` pointer. -/
def unmarshalStructType : Nat → StructType → List Node → Except String StructType
  | 0, _, _ => .error errUnmarshalDepth
  | fuel + 1, dst, children =>
    children.foldlM (fun acc child =>
      match child with
      | .text _ => .ok acc
      | .elem name sub =>
        if name = "member" then
          (unmarshalMembers fuel acc.Members sub).map fun ms => .mk ms
        else .ok acc) dst
/-- Unmarshal a `<member>` into the `Members` slice: the slice grows by one zero
element and the element is unmarshalled one level deeper. -/
def unmarshalMembers : Nat → List MemberType → List Node → Except String (List MemberType)
  | 0, _, _ => .error errUnmarshalDepth
  | fuel + 1, dst, children =>
    (unmarshalMemberType fuel MemberType.zero children).map fun m => dst ++ [m]
/-- Unmarshal the children of a `<member>` into a `MemberType`. -/
def unmarshalMemberType : Nat → MemberType → List Node → Except String MemberType
  | 0, _, _ => .error errUnmarshalDepth
  | fuel + 1, dst, children =>
    children.foldlM (fun acc child =>
      match child with
      | .text _ => .ok acc
      | .elem name sub =>
        if name = "name" then
          (unmarshalString fuel sub).map fun s => .mk s acc.Value
        else if name = "value" then
          (unmarshalValueType fuel acc.Value sub).map fun v => .mk acc.Name v
        else .ok acc) dst
end

/-- Unmarshal the children of a `<param>` into a `ParamValue` (field `Value`,
tag `value`). -/
def unmarshalParamValue : Nat → ParamValue → List Node → Except String ParamValue
  | 0, _, _ => .error errUnmarshalDepth
  | fuel + 1, dst, children =>
    children.foldlM (fun acc child =>
      match child with
      | .text _ => .ok acc
      | .elem name sub =>
        if name = "value" then
          (unmarshalValueType fuel acc.Value sub).map fun v => { Value := v }
        else .ok acc) dst

/-- Unmarshal a `<param>` into the `Params []ParamValue` slice. -/
def unmarshalParams : Nat → List ParamValue → List Node → Except String (List ParamValue)
  | 0, _, _ => .error errUnmarshalDepth
  | fuel + 1, dst, children =>
    (unmarshalParamValue fuel { Value := ValueType.zero } children).map fun p => dst ++ [p]

/-- Unmarshal the children of a `<params>` into a `ParamsArray` (field `Params`,
tag `param`). -/
def unmarshalParamsArray : Nat → ParamsArray → List Node → Except String ParamsArray
  | 0, _, _ => .error errUnmarshalDepth
  | fuel + 1, dst, children =>
    children.foldlM (fun acc child =>
      match child with
      | .text _ => .ok acc
      | .elem name sub =>
        if name = "param" then
          (unmarshalParams fuel acc.Params sub).map fun ps => { Params := ps }
        else .ok acc) dst

/-- Unmarshal a document into a zero `MethodCall`, at depth 0.  The `XMLName`
field is tagged `methodCall`, so the root element must carry that name; the
children named `methodName` and `params` set the two fields. -/
def unmarshalMethodCall : Node → Except String MethodCall
  | .text _ => .error "EOF"
  | .elem name children =>
    if name ≠ "methodCall" then
      .error ("expected element type <methodCall> but have <" ++ name ++ ">")
    else
      children.foldlM (fun acc child =>
        match child with
        | .text _ => .ok acc
        | .elem cname sub =>
          if cname = "methodName" then
            (unmarshalString (maxUnmarshalDepth - 1) sub).map fun s =>
              { acc with MethodName := s }
          else if cname = "params" then
            (unmarshalParamsArray (maxUnmarshalDepth - 1) acc.Params sub).map fun ps =>
              { acc with Params := ps }
          else .ok acc)
        { XMLName := name, MethodName := "", Params := { Params := [] } }

/-- Unmarshal the element tree of a marshalled `ValueType` into a zero
`ValueType`, at depth 0 (`xml.Unmarshal(data, &v)`). -/
def decodeValue (children : List Node) : Except String ValueType :=
  unmarshalValueType maxUnmarshalDepth ValueType.zero children

/-! ## The server (`server.go`) -/

/-- The interface `MethodHandler`: `Handle(params) (interface{}, error)`; an error is carried
by its message. -/
abbrev MethodHandler (ρ : Type) : Type := List ParamValue → Except String ρ

/-- The library functions `server.go` calls on data. -/
structure Library (ρ : Type) where
  /-- The tokenizer of `encoding/xml`: the root element of the body, or `none`
  when the body is not well formed. -/
  xmlParse : String → Option Node
  /-- The `json.Marshal` of a handler result. -/
  jsonMarshal : ρ → Except String String

/-- The part of `*http.Request` that `ServeHTTP` reads: the HTTP method and the
outcome of `io.ReadAll(r.Body)`. -/
structure Request where
  Method : String
  Body : Except String String

/-- The struct `Server`: the handler map (the logger only receives effects). -/
structure Server (ρ : Type) where
  handlers : String → Option (MethodHandler ρ)

/-- What the server does to the outside, in the order the code does it. -/
inductive Effect (ρ : Type) where
  /-- The call `io.ReadAll(r.Body)` -/
  | readBody
  /-- The call `s.logger.Debug` -/
  | logDebug (msg : String)
  /-- The call `s.logger.Error` -/
  | logError (msg : String)
  /-- The call `xml.Unmarshal(body, &methodCall)` -/
  | unmarshal (body : String)
  /-- The call `handler.Handle(params)` -/
  | handle (handler : MethodHandler ρ) (params : List ParamValue)
  /-- The call `w.Header().Set(key, value)` -/
  | setHeader (key value : String)
  /-- The call `w.WriteHeader(status)`: an HTTP status other than the default 200 -/
  | writeHeader (status : Nat)
  /-- The call `xml.NewEncoder(w).Encode(&response)` -/
  | encode (response : MethodResponse)

/-- The constructor `NewServer`: an empty handler map. -/
def NewServer (ρ : Type) : Server ρ :=
  { handlers := fun _ => none }

/-- The method `RegisterHandler`: `s.handlers[method] = handler`. -/
def Server.RegisterHandler {ρ : Type} (s : Server ρ) (method : String)
    (handler : MethodHandler ρ) : Server ρ :=
  { handlers := fun m => if m = method then some handler else s.handlers m }

/-- The call `xml.Unmarshal(body, &methodCall)`: tokenize the body, then unmarshal the
root element. -/
def xmlUnmarshal (parse : String → Option Node) (body : String) : Except String MethodCall :=
  match parse body with
  | none => .error "XML syntax error"
  | some root => unmarshalMethodCall root

/-- The method `sendError`: the fault response with members `faultCode` and
`faultString`; the content type is set and the response is encoded. -/
def Server.sendError {ρ : Type} (_s : Server ρ) (code : Int) (message : String) :
    List (Effect ρ) :=
  let response : MethodResponse :=
    { XMLName := ""
      Params := none
      Fault := some
        { Value := .mk "" 0 (some (.mk
            [ .mk "faultCode" (.mk "" code none),
              .mk "faultString" (.mk message 0 none) ])) } }
  [Effect.setHeader "Content-Type" "text/xml", Effect.encode response]

/-- The method `sendResponse`: the result is marshalled to JSON and wrapped as the only
member, `JsonResult`, of the only parameter. -/
def Server.sendResponse {ρ : Type} (lib : Library ρ) (s : Server ρ) (result : ρ) :
    List (Effect ρ) :=
  match lib.jsonMarshal result with
  | .error _ => s.sendError 500 "Failed to create response"
  | .ok jsonResponse =>
    let xmlResponse : MethodResponse :=
      { XMLName := ""
        Params := some
          { Params :=
              [ { Value := .mk "" 0 (some (.mk
                    [ .mk "JsonResult" (.mk jsonResponse 0 none) ])) } ] }
        Fault := none }
    [Effect.setHeader "Content-Type" "text/xml", Effect.encode xmlResponse]

/-- The method `ServeHTTP`: reject a method other than POST, read the body,
unmarshal the call, look the handler up, invoke it and send its outcome. -/
def Server.ServeHTTP {ρ : Type} (lib : Library ρ) (s : Server ρ) (r : Request) :
    List (Effect ρ) :=
  if r.Method ≠ "POST" then
    s.sendError 405 "Method not allowed"
  else
    Effect.readBody ::
    match r.Body with
    | .error _ => s.sendError 500 "Failed to read request body"
    | .ok body =>
      Effect.logDebug "received request" :: Effect.unmarshal body ::
      match xmlUnmarshal lib.xmlParse body with
      | .error _ =>
        Effect.logError "failed to unmarshal request" ::
          s.sendError 400 "Invalid XML-RPC request"
      | .ok methodCall =>
        match s.handlers methodCall.MethodName with
        | none => s.sendError 400 ("Unknown method: " ++ methodCall.MethodName)
        | some handler =>
          Effect.handle handler methodCall.Params.Params ::
          match handler methodCall.Params.Params with
          | .error err => s.sendError 500 err
          | .ok result => s.sendResponse lib result

/-! ## Observations on an effect list -/

/-- The responses handed to the XML encoder, in order. -/
def responses {ρ : Type} : List (Effect ρ) → List MethodResponse
  | [] => []
  | .encode resp :: rest => resp :: responses rest
  | _ :: rest => responses rest

/-- The handler invocations, in order: the handler and the parameters passed. -/
def invocations {ρ : Type} : List (Effect ρ) → List (MethodHandler ρ × List ParamValue)
  | [] => []
  | .handle h params :: rest => (h, params) :: invocations rest
  | _ :: rest => invocations rest

/-- The HTTP statuses set with `WriteHeader`, in order. -/
def statuses {ρ : Type} : List (Effect ρ) → List Nat
  | [] => []
  | .writeHeader st :: rest => st :: statuses rest
  | _ :: rest => statuses rest

/-- Whether the body is read (`io.ReadAll`) or decoded (`xml.Unmarshal`). -/
def touchesBody {ρ : Type} : List (Effect ρ) → Bool
  | [] => false
  | .readBody :: _ => true
  | .unmarshal _ :: _ => true
  | _ :: rest => touchesBody rest

/-- Exactly one of `Params` and `Fault` is non-nil. -/
def MethodResponse.exactlyOne (resp : MethodResponse) : Bool :=
  resp.Params.isSome != resp.Fault.isSome

/-- The number of populated branches of a `ValueType`: a non-empty
`StringValue`, a non-zero `IntValue`, a non-nil `StructValue`. -/
def ValueType.populated : ValueType → Nat
  | .mk s i st =>
    (if s = "" then 0 else 1) + (if i = 0 then 0 else 1) + (if st.isSome then 1 else 0)

mutual
/-- A value together with every value nested in it. -/
def ValueType.subvalues : ValueType → List ValueType
  | .mk s i st => .mk s i st :: structSubvalues st
/-- The values nested behind a `StructValue` pointer. -/
def structSubvalues : Option StructType → List ValueType
  | none => []
  | some (.mk ms) => memberSubvalues ms
/-- The values nested in a member list. -/
def memberSubvalues : List MemberType → List ValueType
  | [] => []
  | .mk _ v :: rest => v.subvalues ++ memberSubvalues rest
end

/-- Every value inside a response: the parameters' values and the fault value,
with everything nested in them. -/
def MethodResponse.values (resp : MethodResponse) : List ValueType :=
  (match resp.Params with
    | none => []
    | some ps => ps.Params.flatMap fun p => p.Value.subvalues) ++
  (match resp.Fault with
    | none => []
    | some f => f.Value.subvalues)

/-! ## The spec's tagged union, for the round trip -/

/-- The `Value` of the specification (section 3): a tagged union of a string, a
signed 64-bit integer and an ordered struct of named members. -/
inductive SpecValue where
  | String (text : String)
  | Int (i : Int)
  | Struct (members : List (String × SpecValue))

mutual
/-- The `ValueType` the code uses for each branch, as `sendError` and
`sendResponse` build them: only the field of that branch is set. -/
def SpecValue.toValueType : SpecValue → ValueType
  | .String s => .mk s 0 none
  | .Int i => .mk "" i none
  | .Struct ms => .mk "" 0 (some (.mk (toMembers ms)))
/-- The member list of a struct, in order. -/
def toMembers : List (String × SpecValue) → List MemberType
  | [] => []
  | (n, v) :: rest => .mk n v.toValueType :: toMembers rest
end

mutual
/-- Read a `ValueType` as a tagged value: defined when exactly one branch is
populated, here and in every nested member. -/
def ValueType.view : ValueType → Option SpecValue
  | .mk s i none =>
    if s ≠ "" ∧ i = 0 then some (.String s)
    else if s = "" ∧ i ≠ 0 then some (.Int i)
    else none
  | .mk s i (some (.mk ms)) =>
    if s = "" ∧ i = 0 then (viewMembers ms).map SpecValue.Struct else none
/-- Read a member list, in order. -/
def viewMembers : List MemberType → Option (List (String × SpecValue))
  | [] => some []
  | .mk n v :: rest =>
    match v.view, viewMembers rest with
    | some x, some xs => some ((n, x) :: xs)
    | _, _ => none
end

mutual
/-- The member names of every struct in the value are pairwise distinct, and
every integer fits 64 bits: the values the round-trip property speaks of. -/
def SpecValue.wellFormed : SpecValue → Bool
  | .String _ => true
  | .Int i => decide (-(2 : Int) ^ 63 ≤ i) && decide (i < (2 : Int) ^ 63)
  | .Struct ms => decide ((ms.map Prod.fst).Nodup) && membersWellFormed ms
/-- Every member value is well formed. -/
def membersWellFormed : List (String × SpecValue) → Bool
  | [] => true
  | (_, v) :: rest => v.wellFormed && membersWellFormed rest
end

mutual
/-- No string of the value is empty, no integer is zero, every integer fits 64
bits, and every character of a string or a member name is in the XML character
range. -/
def SpecValue.encodable : SpecValue → Bool
  | .String s => s != "" && s.data.all isInCharacterRange
  | .Int i => i != 0 && decide (-(2 : Int) ^ 63 ≤ i) && decide (i < (2 : Int) ^ 63)
  | .Struct ms => membersEncodable ms
/-- Every member name and value is encodable. -/
def membersEncodable : List (String × SpecValue) → Bool
  | [] => true
  | (n, v) :: rest => n.data.all isInCharacterRange && v.encodable && membersEncodable rest
end

mutual
/-- The number of nested struct levels of a value. -/
def SpecValue.nesting : SpecValue → Nat
  | .String _ => 0
  | .Int _ => 0
  | .Struct ms => membersNesting ms + 1
/-- The deepest nesting among the member values. -/
def membersNesting : List (String × SpecValue) → Nat
  | [] => 0
  | (_, v) :: rest => max v.nesting (membersNesting rest)
end

/-- The round trip of the specification: decoding the encoding of `v` succeeds
and reads back as `v`, branch, content and member order. -/
def RoundTrip (v : SpecValue) : Prop :=
  ∃ w, decodeValue (marshalValueType v.toValueType) = .ok w ∧ w.view = some v

/-! ## Documents of the wire grammar and example inputs -/

/-- The `methodCall` document of the wire grammar: a `methodName` and, under
`params`, one `param` with one `value` element per entry of `values` (the
children of that `value` element). -/
def methodCallDocument (name : String) (values : List (List Node)) : Node :=
  .elem "methodCall"
    [ .elem "methodName" (textNodes name),
      .elem "params" (values.map fun vc => .elem "param" [.elem "value" vc]) ]

/-- The children of a `<value>` element hold no recognized payload: no child
element is named `string`, `int` or `struct` (the element may be empty). -/
def noPayload (children : List Node) : Bool :=
  children.all fun child =>
    match child with
    | .text _ => true
    | .elem name _ => name != "string" && name != "int" && name != "struct"

/-- The request body of the specification's scenario with an empty value. -/
def emptyValueBody : String :=
  "<methodCall><methodName>X</methodName><params><param><value></value></param></params></methodCall>"

/-- A tokenizer that knows `emptyValueBody` and rejects every other body. -/
def exampleParse (body : String) : Option Node :=
  if body = emptyValueBody then some (methodCallDocument "X" [[]]) else none

/-- A library whose handler results are strings, marshalled as JSON strings. -/
def exampleLibrary : Library String :=
  { xmlParse := exampleParse
    jsonMarshal := fun x => .ok ("\"" ++ x ++ "\"") }

/-- A handler that succeeds on every parameter list. -/
def okHandler : MethodHandler String := fun _ => .ok "done"

/-- A handler that fails with the given message on every parameter list. -/
def failingHandler (message : String) : MethodHandler String := fun _ => .error message

/-- A POST request carrying `emptyValueBody`. -/
def emptyValueRequest : Request :=
  { Method := "POST", Body := .ok emptyValueBody }

/-- The call `emptyValueBody` decodes to. -/
def emptyValueCall : MethodCall :=
  { XMLName := "methodCall", MethodName := "X",
    Params := { Params := [ { Value := ValueType.zero } ] } }

/-! ## Claims as stated, where the code departs from them -/

/-- The transport-level rejection of a request: an HTTP error status is set,
the body is neither read nor decoded, no handler is invoked and no fault
document is written. -/
def RejectedByTransport {ρ : Type} (trace : List (Effect ρ)) : Prop :=
  statuses trace ≠ [] ∧ touchesBody trace = false ∧ invocations trace = [] ∧
  ∀ resp ∈ responses trace, resp.Fault.isNone = true

/-- The bad-request answer: no handler is invoked and the only response is the
fault with code 400 that `ServeHTTP` sends on a decode failure. -/
def AnsweredBadRequest {ρ : Type} (trace : List (Effect ρ)) : Prop :=
  invocations trace = [] ∧
  responses trace =
    [ { XMLName := "", Params := none,
        Fault := some { Value := .mk "" 0 (some (.mk
          [ .mk "faultCode" (.mk "" 400 none),
            .mk "faultString" (.mk "Invalid XML-RPC request" 0 none) ])) } } ]

/-- Every value inside every response of the trace has exactly one branch
populated. -/
def SingleBranchValues {ρ : Type} (trace : List (Effect ρ)) : Prop :=
  ∀ resp ∈ responses trace, ∀ v ∈ resp.values, v.populated = 1

/-- The children lists of the child elements called `name`, in document order;
character data and elements of another name are passed over. -/
def elementsNamed (name : String) : List Node → List (List Node)
  | [] => []
  | .text _ :: rest => elementsNamed name rest
  | .elem n sub :: rest =>
    if n = name then sub :: elementsNamed name rest else elementsNamed name rest

/-- The outcome of a `<param>` element with children `psub`: it has exactly one
`<value>` child element, and either that element holds no recognized payload
and the parameter is the zero `ValueType`, or its children unmarshal (at the
depth of a parameter value, 4) to the parameter's value. -/
def ParamDecodes (psub : List Node) (p : ParamValue) : Prop :=
  ∃ vc, elementsNamed "value" psub = [vc] ∧
    ((noPayload vc = true ∧ p.Value = ValueType.zero) ∨
      unmarshalValueType (maxUnmarshalDepth - 4) ValueType.zero vc = .ok p.Value)

/-- The empty-value request in the indented layout of the wire format. -/
def indentedEmptyValueBody : String :=
  "<methodCall>\n  <methodName>X</methodName>\n  <params>\n    <param>\n      <value></value>\n    </param>\n  </params>\n</methodCall>"

/-- The element tree of `indentedEmptyValueBody`: the line breaks and the
indentation are character data between the elements. -/
def indentedEmptyValueDocument : Node :=
  .elem "methodCall"
    [ .text "\n  ", .elem "methodName" [.text "X"], .text "\n  ",
      .elem "params"
        [ .text "\n    ",
          .elem "param" [.text "\n      ", .elem "value" [], .text "\n    "],
          .text "\n  " ],
      .text "\n" ]

/-- A library whose tokenizer knows `indentedEmptyValueBody` and rejects every
other body. -/
def indentedLibrary : Library String :=
  { xmlParse := fun body =>
      if body = indentedEmptyValueBody then some indentedEmptyValueDocument else none
    jsonMarshal := fun x => .ok ("\"" ++ x ++ "\"") }

/-! # Theorems -/

/-! ## Dispatch -/

/-- C1: a decoded POST request for a method name that is not a key of the
registry invokes no handler and is answered by exactly one response, a fault
(no `Params`) whose `faultString` is `"Unknown method: "` followed by the
requested name. -/
theorem unknown_method_fault {ρ : Type} (lib : Library ρ) (s : Server ρ) (r : Request)
    (body : String) (call : MethodCall)
    (hpost : r.Method = "POST") (hbody : r.Body = .ok body)
    (hdec : xmlUnmarshal lib.xmlParse body = .ok call)
    (hunknown : s.handlers call.MethodName = none) :
    invocations (s.ServeHTTP lib r) = [] ∧
    responses (s.ServeHTTP lib r) =
      [ { XMLName := "", Params := none,
          Fault := some { Value := .mk "" 0 (some (.mk
            [ .mk "faultCode" (.mk "" 400 none),
              .mk "faultString" (.mk ("Unknown method: " ++ call.MethodName) 0 none) ])) } } ] := by
  simp [Server.ServeHTTP, Server.sendError, hpost, hbody, hdec, hunknown, invocations, responses]

/-- C1 at the empty registry and the request for method `X`. -/
theorem unknown_method_fault_witness :
    invocations ((NewServer String).ServeHTTP exampleLibrary emptyValueRequest) = [] ∧
    responses ((NewServer String).ServeHTTP exampleLibrary emptyValueRequest) =
      [ { XMLName := "", Params := none,
          Fault := some { Value := .mk "" 0 (some (.mk
            [ .mk "faultCode" (.mk "" 400 none),
              .mk "faultString" (.mk ("Unknown method: " ++ emptyValueCall.MethodName) 0 none) ])) } } ] :=
  unknown_method_fault exampleLibrary (NewServer String) emptyValueRequest emptyValueBody
    emptyValueCall rfl rfl rfl rfl

/-- C2: when the handler result marshals to the JSON text `j`, `sendResponse`
writes exactly one response, a success (no `Fault`) with a single parameter, a
struct with the single member `JsonResult`, whose value is the string `j`. -/
theorem sendResponse_wraps_json {ρ : Type} (lib : Library ρ) (s : Server ρ) (result : ρ)
    (j : String) (hjson : lib.jsonMarshal result = .ok j) :
    responses (s.sendResponse lib result) =
      [ { XMLName := "",
          Params := some { Params :=
            [ { Value := .mk "" 0 (some (.mk [ .mk "JsonResult" (.mk j 0 none) ])) } ] },
          Fault := none } ] := by
  simp [Server.sendResponse, hjson, responses]

/-- C2 at the result `done`, marshalled as a JSON string. -/
theorem sendResponse_wraps_json_witness :
    responses ((NewServer String).sendResponse exampleLibrary "done") =
      [ { XMLName := "",
          Params := some { Params :=
            [ { Value := .mk "" 0 (some (.mk [ .mk "JsonResult" (.mk "\"done\"" 0 none) ])) } ] },
          Fault := none } ] :=
  sendResponse_wraps_json exampleLibrary (NewServer String) "done" "\"done\"" rfl

/-- C3: a decoded POST request for a registered method whose handler fails with
message `m` is answered by exactly one response, a fault (no `Params`) whose
value is the struct of `faultCode` = 500 and `faultString` = `m`, in that
order. -/
theorem handler_error_fault {ρ : Type} (lib : Library ρ) (s : Server ρ) (r : Request)
    (body : String) (call : MethodCall) (handler : MethodHandler ρ) (m : String)
    (hpost : r.Method = "POST") (hbody : r.Body = .ok body)
    (hdec : xmlUnmarshal lib.xmlParse body = .ok call)
    (hreg : s.handlers call.MethodName = some handler)
    (herr : handler call.Params.Params = .error m) :
    responses (s.ServeHTTP lib r) =
      [ { XMLName := "", Params := none,
          Fault := some { Value := .mk "" 0 (some (.mk
            [ .mk "faultCode" (.mk "" 500 none),
              .mk "faultString" (.mk m 0 none) ])) } } ] := by
  simp [Server.ServeHTTP, Server.sendError, hpost, hbody, hdec, hreg, herr, responses]

/-- C3 at a handler for `X` that fails with the message `boom`. -/
theorem handler_error_fault_witness :
    responses (((NewServer String).RegisterHandler "X" (failingHandler "boom")).ServeHTTP
      exampleLibrary emptyValueRequest) =
      [ { XMLName := "", Params := none,
          Fault := some { Value := .mk "" 0 (some (.mk
            [ .mk "faultCode" (.mk "" 500 none),
              .mk "faultString" (.mk "boom" 0 none) ])) } } ] :=
  handler_error_fault exampleLibrary ((NewServer String).RegisterHandler "X" (failingHandler "boom"))
    emptyValueRequest emptyValueBody emptyValueCall (failingHandler "boom") "boom"
    rfl rfl rfl rfl rfl

/-- C4: on every path of `ServeHTTP`, and for every call of `sendError` and
`sendResponse`, exactly one response is built and it has exactly one of `Params`
and `Fault` populated. -/
theorem response_exactly_one {ρ : Type} (lib : Library ρ) (s : Server ρ) :
    (∀ (code : Int) (message : String),
      (responses (s.sendError code message : List (Effect ρ))).length = 1 ∧
      (responses (s.sendError code message : List (Effect ρ))).all MethodResponse.exactlyOne = true) ∧
    (∀ result : ρ,
      (responses (s.sendResponse lib result)).length = 1 ∧
      (responses (s.sendResponse lib result)).all MethodResponse.exactlyOne = true) ∧
    (∀ r : Request,
      (responses (s.ServeHTTP lib r)).length = 1 ∧
      (responses (s.ServeHTTP lib r)).all MethodResponse.exactlyOne = true) := by
  have hE : ∀ (code : Int) (message : String),
      (responses (s.sendError code message : List (Effect ρ))).length = 1 ∧
      (responses (s.sendError code message : List (Effect ρ))).all MethodResponse.exactlyOne = true := by
    intro code message
    simp [Server.sendError, responses, MethodResponse.exactlyOne]
  have hR : ∀ result : ρ,
      (responses (s.sendResponse lib result)).length = 1 ∧
      (responses (s.sendResponse lib result)).all MethodResponse.exactlyOne = true := by
    intro result
    unfold Server.sendResponse
    cases lib.jsonMarshal result with
    | error e => exact hE _ _
    | ok j => simp [responses, MethodResponse.exactlyOne]
  refine ⟨hE, hR, ?_⟩
  intro r
  unfold Server.ServeHTTP
  split
  · exact hE _ _
  · cases r.Body with
    | error e => simpa [responses] using hE 500 "Failed to read request body"
    | ok body =>
      simp only [responses]
      cases xmlUnmarshal lib.xmlParse body with
      | error e => simpa [responses] using hE 400 "Invalid XML-RPC request"
      | ok call =>
        simp only
        cases s.handlers call.MethodName with
        | none => exact hE _ _
        | some handler =>
          simp only [responses]
          cases handler call.Params.Params with
          | error m => exact hE _ _
          | ok result => exact hR _

/-- C6: a POST request whose body fails to decode invokes no handler and is
answered by exactly one response, the fault with `faultCode` 400. -/
theorem decode_failure_fault {ρ : Type} (lib : Library ρ) (s : Server ρ) (r : Request)
    (body : String) (e : String)
    (hpost : r.Method = "POST") (hbody : r.Body = .ok body)
    (hdec : xmlUnmarshal lib.xmlParse body = .error e) :
    invocations (s.ServeHTTP lib r) = [] ∧
    responses (s.ServeHTTP lib r) =
      [ { XMLName := "", Params := none,
          Fault := some { Value := .mk "" 0 (some (.mk
            [ .mk "faultCode" (.mk "" 400 none),
              .mk "faultString" (.mk "Invalid XML-RPC request" 0 none) ])) } } ] := by
  simp [Server.ServeHTTP, Server.sendError, hpost, hbody, hdec, invocations, responses]

/-- C6 at a body the tokenizer rejects, with `X` registered. -/
theorem decode_failure_fault_witness :
    invocations (((NewServer String).RegisterHandler "X" okHandler).ServeHTTP exampleLibrary
      { Method := "POST", Body := .ok "<methodCall>" }) = [] ∧
    responses (((NewServer String).RegisterHandler "X" okHandler).ServeHTTP exampleLibrary
      { Method := "POST", Body := .ok "<methodCall>" }) =
      [ { XMLName := "", Params := none,
          Fault := some { Value := .mk "" 0 (some (.mk
            [ .mk "faultCode" (.mk "" 400 none),
              .mk "faultString" (.mk "Invalid XML-RPC request" 0 none) ])) } } ] :=
  decode_failure_fault exampleLibrary ((NewServer String).RegisterHandler "X" okHandler)
    { Method := "POST", Body := .ok "<methodCall>" } "<methodCall>" "XML syntax error"
    rfl rfl rfl

/-! ## Non-POST requests -/

/-- C7, as stated, fails: a GET request is not rejected at the transport level.
No HTTP status is set and the response written is a fault document. -/
theorem non_post_not_transport_error :
    statuses (((NewServer String).RegisterHandler "X" okHandler).ServeHTTP exampleLibrary
      { Method := "GET", Body := .ok emptyValueBody }) = [] ∧
    (responses (((NewServer String).RegisterHandler "X" okHandler).ServeHTTP exampleLibrary
      { Method := "GET", Body := .ok emptyValueBody })).map (fun resp => resp.Fault.isSome)
      = [true] ∧
    ¬ RejectedByTransport
      (((NewServer String).RegisterHandler "X" okHandler).ServeHTTP exampleLibrary
        { Method := "GET", Body := .ok emptyValueBody }) :=
  ⟨rfl, rfl, fun h => h.1 rfl⟩

/-- C7, amended: a request whose HTTP method is not POST is answered without
reading or decoding the body and without invoking a handler; no HTTP status is
set, and the response written is the XML-RPC fault with `faultCode` 405 and
`faultString` "Method not allowed". -/
theorem non_post_fault {ρ : Type} (lib : Library ρ) (s : Server ρ) (r : Request)
    (hmethod : r.Method ≠ "POST") :
    touchesBody (s.ServeHTTP lib r) = false ∧
    invocations (s.ServeHTTP lib r) = [] ∧
    statuses (s.ServeHTTP lib r) = [] ∧
    responses (s.ServeHTTP lib r) =
      [ { XMLName := "", Params := none,
          Fault := some { Value := .mk "" 0 (some (.mk
            [ .mk "faultCode" (.mk "" 405 none),
              .mk "faultString" (.mk "Method not allowed" 0 none) ])) } } ] := by
  simp [Server.ServeHTTP, Server.sendError, hmethod, touchesBody, invocations, statuses,
    responses]

/-- C7, amended, at a GET request with `X` registered. -/
theorem non_post_fault_witness :
    touchesBody (((NewServer String).RegisterHandler "X" okHandler).ServeHTTP exampleLibrary
      { Method := "GET", Body := .ok emptyValueBody }) = false ∧
    invocations (((NewServer String).RegisterHandler "X" okHandler).ServeHTTP exampleLibrary
      { Method := "GET", Body := .ok emptyValueBody }) = [] ∧
    statuses (((NewServer String).RegisterHandler "X" okHandler).ServeHTTP exampleLibrary
      { Method := "GET", Body := .ok emptyValueBody }) = [] ∧
    responses (((NewServer String).RegisterHandler "X" okHandler).ServeHTTP exampleLibrary
      { Method := "GET", Body := .ok emptyValueBody }) =
      [ { XMLName := "", Params := none,
          Fault := some { Value := .mk "" 0 (some (.mk
            [ .mk "faultCode" (.mk "" 405 none),
              .mk "faultString" (.mk "Method not allowed" 0 none) ])) } } ] :=
  non_post_fault exampleLibrary ((NewServer String).RegisterHandler "X" okHandler)
    { Method := "GET", Body := .ok emptyValueBody } (by decide)

/-! ## Registration -/

/-- C9: after `RegisterHandler n h1` and then `RegisterHandler n h2` the
handler looked up for `n` is `h2`, the handler looked up for every other name is
what it was before, and a decoded POST request for `n` invokes `h2`, once, with
the decoded parameters. -/
theorem register_last_wins {ρ : Type} (lib : Library ρ) (s : Server ρ) (n : String)
    (h1 h2 : MethodHandler ρ) (r : Request) (body : String) (call : MethodCall)
    (hpost : r.Method = "POST") (hbody : r.Body = .ok body)
    (hdec : xmlUnmarshal lib.xmlParse body = .ok call)
    (hname : call.MethodName = n) :
    ((s.RegisterHandler n h1).RegisterHandler n h2).handlers n = some h2 ∧
    (∀ m, m ≠ n →
      ((s.RegisterHandler n h1).RegisterHandler n h2).handlers m = s.handlers m) ∧
    invocations (((s.RegisterHandler n h1).RegisterHandler n h2).ServeHTTP lib r) =
      [(h2, call.Params.Params)] := by
  refine ⟨by simp [Server.RegisterHandler], ?_, ?_⟩
  · intro m hm
    simp [Server.RegisterHandler, hm]
  · subst hname
    simp only [Server.ServeHTTP, hpost, hbody, hdec, Server.RegisterHandler, invocations,
      ne_eq, not_true_eq_false, if_false, if_true]
    cases h2 call.Params.Params with
    | error m => simp [Server.sendError, invocations]
    | ok result =>
      simp only [Server.sendResponse]
      cases lib.jsonMarshal result <;> simp [Server.sendError, invocations]

/-- C9 at two registrations of `X` and the request for `X`. -/
theorem register_last_wins_witness :
    (((NewServer String).RegisterHandler "X" (failingHandler "old")).RegisterHandler "X"
      okHandler).handlers "X" = some okHandler ∧
    (∀ m, m ≠ "X" →
      (((NewServer String).RegisterHandler "X" (failingHandler "old")).RegisterHandler "X"
        okHandler).handlers m = (NewServer String).handlers m) ∧
    invocations ((((NewServer String).RegisterHandler "X" (failingHandler "old")).RegisterHandler
      "X" okHandler).ServeHTTP exampleLibrary emptyValueRequest) =
      [(okHandler, emptyValueCall.Params.Params)] :=
  register_last_wins exampleLibrary (NewServer String) "X" (failingHandler "old") okHandler
    emptyValueRequest emptyValueBody emptyValueCall rfl rfl rfl rfl

/-! ## Branches of the values the server builds -/

/-- C10, as stated, fails: a handler that fails with the empty message makes the
server build a `faultString` value with no branch populated. -/
theorem empty_error_message_no_branch :
    ¬ SingleBranchValues
      (((NewServer String).RegisterHandler "X" (failingHandler "")).ServeHTTP exampleLibrary
        emptyValueRequest) := by
  intro h
  have h0 := h
    { XMLName := "", Params := none,
      Fault := some { Value := .mk "" 0 (some (.mk
        [ .mk "faultCode" (.mk "" 500 none), .mk "faultString" (.mk "" 0 none) ])) } }
    (List.mem_singleton.mpr rfl)
    (.mk "" 0 none)
    (by simp [MethodResponse.values, ValueType.subvalues, structSubvalues, memberSubvalues])
  simp [ValueType.populated] at h0

/-- A fault built by `sendError` from a non-zero code and a non-empty message has
exactly one branch populated in each of its values. -/
theorem sendError_single_branch {ρ : Type} (s : Server ρ) (code : Int) (message : String)
    (hcode : code ≠ 0) (hmsg : message ≠ "") :
    SingleBranchValues (s.sendError code message : List (Effect ρ)) := by
  intro resp hresp v hv
  simp only [Server.sendError, responses, List.mem_singleton] at hresp
  subst hresp
  simp only [MethodResponse.values, ValueType.subvalues, structSubvalues, memberSubvalues,
    List.nil_append, List.append_nil, List.cons_append, List.mem_cons, List.mem_singleton,
    List.not_mem_nil, or_false] at hv
  rcases hv with rfl | rfl | rfl <;> simp [ValueType.populated, hcode, hmsg]

/-- C10, amended: when no handler fails with the empty message and the JSON
marshaller never returns the empty text, every value inside every response
`ServeHTTP` builds has exactly one branch populated. -/
theorem single_branch_values {ρ : Type} (lib : Library ρ) (s : Server ρ) (r : Request)
    (hjson : ∀ result j, lib.jsonMarshal result = .ok j → j ≠ "")
    (herr : ∀ name handler params m,
      s.handlers name = some handler → handler params = .error m → m ≠ "") :
    SingleBranchValues (s.ServeHTTP lib r) := by
  have hE : ∀ (code : Int) (message : String), code ≠ 0 → message ≠ "" →
      ∀ resp ∈ responses (s.sendError code message : List (Effect ρ)),
        ∀ v ∈ resp.values, v.populated = 1 :=
    fun code message hc hm => sendError_single_branch s code message hc hm
  unfold SingleBranchValues Server.ServeHTTP
  split
  · exact hE _ _ (by decide) (by decide)
  · cases r.Body with
    | error e =>
      simp only [responses]
      exact hE _ _ (by decide) (by decide)
    | ok body =>
      simp only [responses]
      cases xmlUnmarshal lib.xmlParse body with
      | error e =>
        simp only [responses]
        exact hE _ _ (by decide) (by decide)
      | ok call =>
        simp only
        cases hreg : s.handlers call.MethodName with
        | none =>
          have hne : "Unknown method: " ++ call.MethodName ≠ "" := by
            intro h
            have hl := congrArg String.length h
            simp only [String.length_append] at hl
            have h16 : "Unknown method: ".length = 16 := by decide
            have h0 : "".length = 0 := by decide
            omega
          exact hE _ _ (by decide) hne
        | some handler =>
          simp only [responses]
          cases hres : handler call.Params.Params with
          | error m => exact hE _ _ (by decide) (herr _ _ _ _ hreg hres)
          | ok result =>
            simp only [Server.sendResponse]
            cases hj : lib.jsonMarshal result with
            | error e => exact hE _ _ (by decide) (by decide)
            | ok j =>
              have hjne := hjson _ _ hj
              intro resp hresp v hv
              simp only [responses, List.mem_singleton] at hresp
              subst hresp
              simp only [MethodResponse.values, ValueType.subvalues, structSubvalues,
                memberSubvalues, List.flatMap_cons, List.flatMap_nil, List.nil_append,
                List.append_nil, List.cons_append, List.mem_cons, List.mem_singleton,
                List.not_mem_nil, or_false] at hv
              rcases hv with rfl | rfl <;> simp [ValueType.populated, hjne]

/-- C10, amended, at a handler that succeeds and the request for `X`. -/
theorem single_branch_values_witness :
    SingleBranchValues
      (((NewServer String).RegisterHandler "X" okHandler).ServeHTTP exampleLibrary
        emptyValueRequest) :=
  single_branch_values exampleLibrary ((NewServer String).RegisterHandler "X" okHandler)
    emptyValueRequest
    (by
      intro result j h hj
      subst hj
      simp only [exampleLibrary, Except.ok.injEq] at h
      have hl := congrArg String.length h
      simp only [String.length_append] at hl
      have h1 : "\"".length = 1 := by decide
      have h0 : "".length = 0 := by decide
      omega)
    (by
      intro name handler params m hreg hres
      simp only [Server.RegisterHandler, NewServer] at hreg
      split at hreg
      · cases hreg
        simp [okHandler] at hres
      · cases hreg)

/-! ## Unfolding the unmarshalling loops -/

theorem foldlM_cons_ok {α β : Type} (f : β → α → Except String β) (b b' : β) (a : α)
    (l : List α) (h : f b a = .ok b') :
    List.foldlM f b (a :: l) = List.foldlM f b' l := by
  simp only [List.foldlM, h]
  rfl

theorem unmarshalValueType_nil (fuel : Nat) (dst : ValueType) :
    unmarshalValueType (fuel + 1) dst [] = .ok dst := by
  rw [unmarshalValueType]
  rfl

theorem unmarshalValueType_text (fuel : Nat) (dst : ValueType) (d : String) (rest : List Node) :
    unmarshalValueType (fuel + 1) dst (.text d :: rest) =
      unmarshalValueType (fuel + 1) dst rest := by
  rw [unmarshalValueType, unmarshalValueType]
  exact foldlM_cons_ok _ _ _ _ _ rfl

theorem unmarshalValueType_skip (fuel : Nat) (dst : ValueType) (name : String)
    (sub rest : List Node) (h1 : name ≠ "string") (h2 : name ≠ "int") (h3 : name ≠ "struct") :
    unmarshalValueType (fuel + 1) dst (.elem name sub :: rest) =
      unmarshalValueType (fuel + 1) dst rest := by
  rw [unmarshalValueType, unmarshalValueType]
  exact foldlM_cons_ok _ _ _ _ _ (by simp [h1, h2, h3])

/-- A `<value>` element without a recognized child leaves the destination as it
is and does not fail. -/
theorem unmarshalValueType_noPayload (fuel : Nat) (dst : ValueType) (children : List Node)
    (h : noPayload children = true) :
    unmarshalValueType (fuel + 1) dst children = .ok dst := by
  induction children with
  | nil => exact unmarshalValueType_nil fuel dst
  | cons child rest ih =>
    have hrest : noPayload rest = true := by
      simp only [noPayload, List.all_cons, Bool.and_eq_true] at h ⊢
      exact h.2
    cases child with
    | text d => rw [unmarshalValueType_text, ih hrest]
    | elem name sub =>
      have hn : name ≠ "string" ∧ name ≠ "int" ∧ name ≠ "struct" := by
        simp only [noPayload, List.all_cons, Bool.and_eq_true, bne_iff_ne, ne_eq] at h
        exact ⟨h.1.1.1, h.1.1.2, h.1.2⟩
      rw [unmarshalValueType_skip fuel dst name sub rest hn.1 hn.2.1 hn.2.2, ih hrest]

theorem charData_textNodes (s : String) : String.mk (charData (textNodes s)) = s := by
  unfold textNodes
  split
  · next h => simp [charData, h]
  · simp [charData]

theorem unmarshalParamValue_of_value (fuel : Nat) (vc : List Node) (v : ValueType) :
    ∀ (psub : List Node) (acc : ParamValue) (vs : List (List Node)),
      elementsNamed "value" psub = vs → vs.length ≤ 1 →
      (∀ x ∈ vs, x = vc ∧ unmarshalValueType fuel acc.Value vc = .ok v) →
      unmarshalParamValue (fuel + 1) acc psub =
        .ok (match vs with
          | [] => acc
          | _ :: _ => { Value := v })
  | [], acc, vs, hvs, _, _ => by
    simp only [elementsNamed] at hvs
    subst hvs
    rw [unmarshalParamValue]
    rfl
  | .text d :: rest, acc, vs, hvs, hlen, hdec => by
    simp only [elementsNamed] at hvs
    have ih := unmarshalParamValue_of_value fuel vc v rest acc vs hvs hlen hdec
    rw [unmarshalParamValue] at ih ⊢
    rw [foldlM_cons_ok _ _ acc _ _ rfl]
    exact ih
  | .elem n sub :: rest, acc, vs, hvs, hlen, hdec => by
    simp only [elementsNamed] at hvs
    by_cases hn : n = "value"
    · subst hn
      rw [if_pos rfl] at hvs
      subst hvs
      have hrest : elementsNamed "value" rest = [] := by
        simp only [List.length_cons] at hlen
        exact List.eq_nil_of_length_eq_zero (by omega)
      obtain ⟨hsub, hv⟩ := hdec sub (List.mem_cons_self _ _)
      subst hsub
      have ih := unmarshalParamValue_of_value fuel sub v rest { Value := v } []
        hrest (by simp) (by simp)
      rw [unmarshalParamValue] at ih ⊢
      rw [foldlM_cons_ok _ _ { Value := v } _ _ (by simp [hv, Except.map])]
      exact ih
    · rw [if_neg hn] at hvs
      have ih := unmarshalParamValue_of_value fuel vc v rest acc vs hvs hlen hdec
      rw [unmarshalParamValue] at ih ⊢
      rw [foldlM_cons_ok _ _ acc _ _ (by simp [hn])]
      exact ih

theorem unmarshalParamsArray_of_params (fuel : Nat) :
    ∀ (paramsSub : List Node) (params acc : List ParamValue),
      List.Forall₂
        (fun psub p => ∃ vc, elementsNamed "value" psub = [vc] ∧
          unmarshalValueType (fuel + 1) ValueType.zero vc = .ok p.Value)
        (elementsNamed "param" paramsSub) params →
      unmarshalParamsArray (fuel + 4) { Params := acc } paramsSub =
        .ok { Params := acc ++ params }
  | [], params, acc, h => by
    simp only [elementsNamed, List.forall₂_nil_left_iff] at h
    subst h
    rw [unmarshalParamsArray]
    simp only [List.append_nil]
    rfl
  | .text d :: rest, params, acc, h => by
    simp only [elementsNamed] at h
    have ih := unmarshalParamsArray_of_params fuel rest params acc h
    rw [unmarshalParamsArray] at ih ⊢
    rw [foldlM_cons_ok _ _ { Params := acc } _ _ rfl]
    exact ih
  | .elem n sub :: rest, params, acc, h => by
    simp only [elementsNamed] at h
    by_cases hn : n = "param"
    · subst hn
      rw [if_pos rfl] at h
      obtain ⟨p, ps, ⟨vc, hvc, hv⟩, hps, rfl⟩ := List.forall₂_cons_left_iff.mp h
      have hstep : unmarshalParamValue (fuel + 2) { Value := ValueType.zero } sub =
          .ok { Value := p.Value } :=
        unmarshalParamValue_of_value (fuel + 1) vc p.Value sub { Value := ValueType.zero } [vc]
          hvc (by simp) (by
            intro x hx
            simp only [List.mem_singleton] at hx
            exact ⟨hx, hv⟩)
      have ih := unmarshalParamsArray_of_params fuel rest ps (acc ++ [p]) hps
      rw [unmarshalParamsArray] at ih ⊢
      rw [foldlM_cons_ok _ _ { Params := acc ++ [p] } _ _
        (by simp [unmarshalParams, hstep, Except.map])]
      rw [ih]
      simp
    · rw [if_neg hn] at h
      have ih := unmarshalParamsArray_of_params fuel rest params acc h
      rw [unmarshalParamsArray] at ih ⊢
      rw [foldlM_cons_ok _ _ { Params := acc } _ _ (by simp [hn])]
      exact ih

theorem foldlM_methodCall_fields (f : MethodCall → Node → Except String MethodCall)
    (htext : ∀ acc d, f acc (.text d) = .ok acc)
    (hskip : ∀ acc n sub, n ≠ "methodName" → n ≠ "params" → f acc (.elem n sub) = .ok acc)
    (hname : ∀ acc sub, f acc (.elem "methodName" sub) =
      .ok { acc with MethodName := String.mk (charData sub) })
    (hparams : ∀ acc sub P, unmarshalParamsArray (maxUnmarshalDepth - 1) acc.Params sub = .ok P →
      f acc (.elem "params" sub) = .ok { acc with Params := P })
    (P : ParamsArray) :
    ∀ (children : List Node) (acc : MethodCall) (ns ps : List (List Node)),
      elementsNamed "methodName" children = ns → elementsNamed "params" children = ps →
      ns.length ≤ 1 → ps.length ≤ 1 →
      (∀ p ∈ ps, unmarshalParamsArray (maxUnmarshalDepth - 1) acc.Params p = .ok P) →
      List.foldlM f acc children =
        .ok { XMLName := acc.XMLName,
              MethodName := (match ns with
                | [] => acc.MethodName
                | n :: _ => String.mk (charData n)),
              Params := (match ps with
                | [] => acc.Params
                | _ :: _ => P) }
  | [], acc, ns, ps, hns, hps, _, _, _ => by
    simp only [elementsNamed] at hns hps
    subst hns hps
    rfl
  | .text d :: rest, acc, ns, ps, hns, hps, hnl, hpl, hP => by
    simp only [elementsNamed] at hns hps
    rw [foldlM_cons_ok _ _ acc _ _ (htext acc d)]
    exact foldlM_methodCall_fields f htext hskip hname hparams P rest acc ns ps hns hps hnl hpl hP
  | .elem n sub :: rest, acc, ns, ps, hns, hps, hnl, hpl, hP => by
    simp only [elementsNamed] at hns hps
    by_cases h1 : n = "methodName"
    · subst h1
      rw [if_pos rfl] at hns
      rw [if_neg (by decide)] at hps
      subst hns
      have hrest : elementsNamed "methodName" rest = [] := by
        simp only [List.length_cons] at hnl
        exact List.eq_nil_of_length_eq_zero (by omega)
      rw [foldlM_cons_ok _ _ _ _ _ (hname acc sub)]
      rw [foldlM_methodCall_fields f htext hskip hname hparams P rest
        { acc with MethodName := String.mk (charData sub) } [] ps hrest hps (by simp) hpl hP]
    · rw [if_neg h1] at hns
      by_cases h2 : n = "params"
      · subst h2
        rw [if_pos rfl] at hps
        subst hps
        have hrest : elementsNamed "params" rest = [] := by
          simp only [List.length_cons] at hpl
          exact List.eq_nil_of_length_eq_zero (by omega)
        have hdec := hP sub (List.mem_cons_self _ _)
        rw [foldlM_cons_ok _ _ _ _ _ (hparams acc sub P hdec)]
        rw [foldlM_methodCall_fields f htext hskip hname hparams P rest
          { acc with Params := P } ns [] hns hrest hnl (by simp) (by simp)]
      · rw [if_neg h2] at hps
        rw [foldlM_cons_ok _ _ acc _ _ (hskip acc n sub h1 h2)]
        exact foldlM_methodCall_fields f htext hskip hname hparams P rest acc ns ps hns hps
          hnl hpl hP

/-! ## Empty values -/

/-- C8, as stated, fails: the request of the specification's scenario with an
empty `<value>` decodes, to a call with one zero parameter, and with `X`
registered the handler is invoked; the answer is not the bad-request fault. -/
theorem empty_value_not_rejected :
    xmlUnmarshal exampleParse emptyValueBody = .ok emptyValueCall ∧
    invocations (((NewServer String).RegisterHandler "X" okHandler).ServeHTTP exampleLibrary
      emptyValueRequest) = [(okHandler, [ { Value := ValueType.zero } ])] ∧
    ¬ AnsweredBadRequest
      (((NewServer String).RegisterHandler "X" okHandler).ServeHTTP exampleLibrary
        emptyValueRequest) :=
  ⟨rfl, rfl, fun h => absurd h.1 (List.cons_ne_nil _ _)⟩

/-- C8, amended: take a `methodCall` document whose root has exactly one
`methodName` and exactly one `params` child element, in any order and with any
character data or other elements between them, and in which every `param` has
exactly one `value` child element.  A parameter whose `<value>` element is
empty or holds no recognized child decodes to the zero `ValueType` without an
error; when the other parameters decode as well, the request decodes, and a
registered handler is invoked, once, with the decoded parameters. -/
theorem empty_value_decodes_to_zero {ρ : Type} (lib : Library ρ) (s : Server ρ) (r : Request)
    (body : String) (children nameSub paramsSub : List Node) (params : List ParamValue)
    (handler : MethodHandler ρ)
    (hpost : r.Method = "POST") (hbody : r.Body = .ok body)
    (hparse : lib.xmlParse body = some (.elem "methodCall" children))
    (hname : elementsNamed "methodName" children = [nameSub])
    (hparams : elementsNamed "params" children = [paramsSub])
    (hvalues : List.Forall₂ ParamDecodes (elementsNamed "param" paramsSub) params)
    (hreg : s.handlers (String.mk (charData nameSub)) = some handler) :
    xmlUnmarshal lib.xmlParse body =
      .ok { XMLName := "methodCall", MethodName := String.mk (charData nameSub),
            Params := { Params := params } } ∧
    invocations (s.ServeHTTP lib r) = [(handler, params)] := by
  have hvalues' : List.Forall₂
      (fun psub p => ∃ vc, elementsNamed "value" psub = [vc] ∧
        unmarshalValueType (9995 + 1) ValueType.zero vc = .ok p.Value)
      (elementsNamed "param" paramsSub) params := by
    refine hvalues.imp ?_
    rintro psub p ⟨vc, hvc, h⟩
    refine ⟨vc, hvc, ?_⟩
    rcases h with ⟨hno, hz⟩ | h
    · rw [hz]
      exact unmarshalValueType_noPayload 9995 ValueType.zero vc hno
    · exact h
  have hP : unmarshalParamsArray (maxUnmarshalDepth - 1) { Params := [] } paramsSub =
      .ok { Params := params } := by
    have h := unmarshalParamsArray_of_params 9995 paramsSub params [] hvalues'
    simpa using h
  have hdec : xmlUnmarshal lib.xmlParse body =
      .ok { XMLName := "methodCall", MethodName := String.mk (charData nameSub),
            Params := { Params := params } } := by
    simp only [xmlUnmarshal, hparse, unmarshalMethodCall]
    rw [if_neg (by simp)]
    exact foldlM_methodCall_fields _
      (fun acc d => rfl)
      (fun acc n sub h1 h2 => by simp [h1, h2])
      (fun acc sub => by simp [unmarshalString, maxUnmarshalDepth, Except.map])
      (fun acc sub P h => by simp [h, Except.map])
      { Params := params } children
      { XMLName := "methodCall", MethodName := "", Params := { Params := [] } }
      [nameSub] [paramsSub] hname hparams (by simp) (by simp)
      (by
        intro p hp
        simp only [List.mem_singleton] at hp
        subst hp
        exact hP)
  refine ⟨hdec, ?_⟩
  simp only [Server.ServeHTTP, hpost, hbody, hdec, hreg, invocations, ne_eq,
    not_true_eq_false, if_false]
  cases handler params with
  | error m => simp [Server.sendError, invocations]
  | ok result =>
    simp only [Server.sendResponse]
    cases lib.jsonMarshal result <;> simp [Server.sendError, invocations]

/-- C8, amended, at the indented request with one empty `<value>` and `X`
registered. -/
theorem empty_value_decodes_to_zero_witness :
    xmlUnmarshal indentedLibrary.xmlParse indentedEmptyValueBody =
      .ok { XMLName := "methodCall", MethodName := String.mk (charData [.text "X"]),
            Params := { Params := [ { Value := ValueType.zero } ] } } ∧
    invocations (((NewServer String).RegisterHandler "X" okHandler).ServeHTTP indentedLibrary
      { Method := "POST", Body := .ok indentedEmptyValueBody }) =
      [(okHandler, [ { Value := ValueType.zero } ])] :=
  empty_value_decodes_to_zero indentedLibrary ((NewServer String).RegisterHandler "X" okHandler)
    { Method := "POST", Body := .ok indentedEmptyValueBody } indentedEmptyValueBody
    [ .text "\n  ", .elem "methodName" [.text "X"], .text "\n  ",
      .elem "params"
        [ .text "\n    ",
          .elem "param" [.text "\n      ", .elem "value" [], .text "\n    "],
          .text "\n  " ],
      .text "\n" ]
    [.text "X"]
    [ .text "\n    ",
      .elem "param" [.text "\n      ", .elem "value" [], .text "\n    "],
      .text "\n  " ]
    [ { Value := ValueType.zero } ] okHandler
    rfl rfl rfl rfl rfl
    (List.Forall₂.cons ⟨[], rfl, Or.inl ⟨rfl, rfl⟩⟩ List.Forall₂.nil) rfl

/-! ## Scalars round-trip -/

theorem digitChar_props (d : Nat) (h : d < 10) :
    (digitChar d).isDigit = true ∧ (digitChar d).toNat - 48 = d ∧ isSpace (digitChar d) = false := by
  interval_cases d <;> decide

theorem isDigit_not_sign (c : Char) (h : c.isDigit = true) :
    c ≠ Char.ofNat 45 ∧ c ≠ Char.ofNat 43 ∧ isSpace c = false := by
  refine ⟨?_, ?_, ?_⟩
  · rintro rfl
    exact absurd h (by decide)
  · rintro rfl
    exact absurd h (by decide)
  · simp only [Char.isDigit, Bool.and_eq_true, decide_eq_true_eq] at h
    have h1 : 48 ≤ c.toNat := by
      have := h.1
      exact this
    have h2 : c.toNat ≤ 57 := by
      have := h.2
      exact this
    simp only [isSpace, Bool.or_eq_false_iff, Bool.and_eq_false_iff, decide_eq_false_iff_not,
      beq_eq_false_iff_ne, ne_eq]
    omega

theorem foldr_digits (L : List Nat) (h : ∀ d ∈ L, d < 10) :
    L.foldr (fun d a => 10 * a + ((digitChar d).toNat - 48)) 0 = Nat.ofDigits 10 L := by
  induction L with
  | nil => rfl
  | cons d L ih =>
    have hd := (digitChar_props d (h d (List.mem_cons_self _ _))).2.1
    have ih' := ih (fun x hx => h x (List.mem_cons_of_mem _ hx))
    simp only [List.foldr_cons, Nat.ofDigits_cons, ih', hd]
    ring

theorem formatUint_props (n : Nat) :
    formatUint n ≠ [] ∧ (∀ c ∈ formatUint n, c.isDigit = true) ∧
    (formatUint n).foldl (fun a c => 10 * a + (c.toNat - 48)) 0 = n := by
  unfold formatUint
  split
  · next h =>
    subst h
    refine ⟨by simp, ?_, by decide⟩
    intro c hc
    simp only [List.mem_singleton] at hc
    subst hc
    decide
  · next h =>
    have hlt : ∀ d ∈ Nat.digits 10 n, d < 10 := fun d hd => Nat.digits_lt_base (by norm_num) hd
    refine ⟨?_, ?_, ?_⟩
    · have hd : Nat.digits 10 n ≠ [] := Nat.digits_ne_nil_iff_ne_zero.mpr h
      simpa using hd
    · intro c hc
      simp only [List.mem_reverse, List.mem_map] at hc
      obtain ⟨d, hd, rfl⟩ := hc
      exact (digitChar_props d (hlt d hd)).1
    · rw [List.foldl_reverse, List.foldr_map, foldr_digits _ hlt, Nat.ofDigits_digits]

theorem parseUint_formatUint (n : Nat) : parseUint (formatUint n) = some n := by
  obtain ⟨hne, hall, hval⟩ := formatUint_props n
  unfold parseUint
  rw [if_neg hne, if_pos (by simpa [List.all_eq_true] using hall), hval]

theorem trimSpace_of_no_space (cs : List Char) (h : ∀ c ∈ cs, isSpace c = false) :
    trimSpace cs = cs := by
  unfold trimSpace
  have h1 : cs.dropWhile isSpace = cs := by
    rw [List.dropWhile_eq_self_iff]
    intro hl
    have hm : cs.get ⟨0, hl⟩ ∈ cs := List.get_mem cs 0 hl
    have hs := h _ hm
    simp only [hs, Bool.false_eq_true, not_false_eq_true]
  rw [h1, List.rdropWhile_eq_self_iff]
  intro hl
  simp [h _ (List.getLast_mem hl)]

theorem formatInt_no_space (i : Int) : ∀ c ∈ formatInt i, isSpace c = false := by
  intro c hc
  have hd : ∀ c ∈ formatUint i.natAbs, isSpace c = false := fun c hc =>
    (isDigit_not_sign c ((formatUint_props i.natAbs).2.1 c hc)).2.2
  unfold formatInt at hc
  split at hc
  · rcases List.mem_cons.mp hc with rfl | hc
    · decide
    · exact hd c hc
  · exact hd c hc

theorem parseInt_formatInt (i : Int) (hlo : -(2 : Int) ^ 63 ≤ i) (hhi : i < (2 : Int) ^ 63) :
    parseInt (formatInt i) = some i := by
  unfold formatInt
  split
  · next hneg =>
    have hn : i.natAbs ≤ 2 ^ 63 := by omega
    simp only [parseInt, if_true, parseUint_formatUint, Option.some_bind, if_pos hn]
    congr 1
    omega
  · next hpos =>
    obtain ⟨hne, hall, _⟩ := formatUint_props i.natAbs
    have hn : i.natAbs < 2 ^ 63 := by omega
    cases hcs : formatUint i.natAbs with
    | nil => exact absurd hcs hne
    | cons c rest =>
      have hc := isDigit_not_sign c (hall c (by rw [hcs]; exact List.mem_cons_self _ _))
      simp only [parseInt, if_neg hc.1, if_neg hc.2.1]
      rw [← hcs, parseUint_formatUint]
      simp only [Option.some_bind, if_pos hn]
      congr 1
      omega

theorem formatInt_ne_nil (i : Int) : formatInt i ≠ [] := by
  unfold formatInt
  split
  · simp
  · exact (formatUint_props i.natAbs).1

theorem unmarshalInt_formatInt (fuel : Nat) (i : Int) (hlo : -(2 : Int) ^ 63 ≤ i)
    (hhi : i < (2 : Int) ^ 63) :
    unmarshalInt (fuel + 1) [.text (String.mk (formatInt i))] = .ok i := by
  have hcd : charData [.text (String.mk (formatInt i))] = formatInt i := by
    simp [charData]
  unfold unmarshalInt
  rw [if_neg (by omega), hcd, if_neg (formatInt_ne_nil i),
    trimSpace_of_no_space _ (formatInt_no_space i), parseInt_formatInt i hlo hhi]

theorem escapeText_of_valid (s : String) (h : s.data.all isInCharacterRange = true) :
    escapeText s = s := by
  unfold escapeText
  have : (s.data.map fun c => if isInCharacterRange c = true then c else Char.ofNat 0xFFFD)
      = s.data := by
    rw [List.all_eq_true] at h
    conv_rhs => rw [← List.map_id s.data]
    apply List.map_congr_left
    intro c hc
    simp [h c hc]
  rw [this]

/-! ## Unfolding the loops over recognized children -/

theorem unmarshalValueType_string (fuel : Nat) (dst : ValueType) (sub rest : List Node)
    (s : String) (h : unmarshalString fuel sub = .ok s) :
    unmarshalValueType (fuel + 1) dst (.elem "string" sub :: rest) =
      unmarshalValueType (fuel + 1) (.mk s dst.IntValue dst.StructValue) rest := by
  rw [unmarshalValueType, unmarshalValueType]
  exact foldlM_cons_ok _ _ _ _ _ (by simp [h, Except.map])

theorem unmarshalValueType_int (fuel : Nat) (dst : ValueType) (sub rest : List Node)
    (i : Int) (h : unmarshalInt fuel sub = .ok i) :
    unmarshalValueType (fuel + 1) dst (.elem "int" sub :: rest) =
      unmarshalValueType (fuel + 1) (.mk dst.StringValue i dst.StructValue) rest := by
  rw [unmarshalValueType, unmarshalValueType]
  exact foldlM_cons_ok _ _ _ _ _ (by simp [h, Except.map])

theorem unmarshalValueType_struct (fuel : Nat) (dst : ValueType) (sub rest : List Node)
    (st : StructType)
    (h : unmarshalStructType fuel (dst.StructValue.getD (.mk [])) sub = .ok st) :
    unmarshalValueType (fuel + 1) dst (.elem "struct" sub :: rest) =
      unmarshalValueType (fuel + 1) (.mk dst.StringValue dst.IntValue (some st)) rest := by
  rw [unmarshalValueType, unmarshalValueType]
  exact foldlM_cons_ok _ _ _ _ _ (by simp [h, Except.map])

theorem unmarshalStructType_nil (fuel : Nat) (dst : StructType) :
    unmarshalStructType (fuel + 1) dst [] = .ok dst := by
  rw [unmarshalStructType]
  rfl

theorem unmarshalStructType_member (fuel : Nat) (dst : StructType) (sub rest : List Node)
    (ms : List MemberType) (h : unmarshalMembers fuel dst.Members sub = .ok ms) :
    unmarshalStructType (fuel + 1) dst (.elem "member" sub :: rest) =
      unmarshalStructType (fuel + 1) (.mk ms) rest := by
  rw [unmarshalStructType, unmarshalStructType]
  exact foldlM_cons_ok _ _ _ _ _ (by simp [h, Except.map])

theorem unmarshalMembers_name_value (fuel : Nat) (acc : List MemberType) (n : String)
    (vc : List Node) (v : ValueType)
    (hv : unmarshalValueType (fuel + 1) ValueType.zero vc = .ok v) :
    unmarshalMembers (fuel + 3) acc [.elem "name" (textNodes n), .elem "value" vc] =
      .ok (acc ++ [.mk n v]) := by
  have hname : unmarshalString (fuel + 1) (textNodes n) = .ok n := by
    simp [unmarshalString, charData_textNodes]
  rw [unmarshalMembers, unmarshalMemberType]
  rw [foldlM_cons_ok _ _ (.mk n ValueType.zero) _ _
    (by simp [hname, Except.map, MemberType.zero, MemberType.Value])]
  rw [foldlM_cons_ok _ _ (.mk n v) _ _
    (by simp [hv, Except.map, MemberType.Value, MemberType.Name])]
  rfl

/-! ## The round trip of encodable values -/

mutual
theorem unmarshal_marshal_value : ∀ (v : SpecValue) (fuel : Nat), v.encodable = true →
    4 * v.nesting + 2 ≤ fuel →
    unmarshalValueType fuel ValueType.zero (marshalValueType v.toValueType) =
      .ok v.toValueType
  | .String s, fuel, henc, hfuel => by
    obtain ⟨f, rfl⟩ : ∃ f, fuel = f + 2 := ⟨fuel - 2, by simp only [SpecValue.nesting] at hfuel; omega⟩
    simp only [SpecValue.encodable, Bool.and_eq_true, bne_iff_ne, ne_eq] at henc
    have hs : unmarshalString (f + 1) (textNodes (escapeText s)) = .ok s := by
      simp [unmarshalString, charData_textNodes, escapeText_of_valid s henc.2]
    simp only [SpecValue.toValueType, marshalValueType, marshalStructValue, if_neg henc.1,
      if_true, List.append_nil, List.nil_append]
    rw [unmarshalValueType_string _ _ _ _ _ hs, unmarshalValueType_nil]
    rfl
  | .Int i, fuel, henc, hfuel => by
    obtain ⟨f, rfl⟩ : ∃ f, fuel = f + 2 := ⟨fuel - 2, by simp only [SpecValue.nesting] at hfuel; omega⟩
    simp only [SpecValue.encodable, Bool.and_eq_true, bne_iff_ne, ne_eq,
      decide_eq_true_eq] at henc
    have hi := unmarshalInt_formatInt f i henc.1.2 henc.2
    simp only [SpecValue.toValueType, marshalValueType, marshalStructValue, if_neg henc.1.1,
      if_true, List.append_nil, List.nil_append]
    rw [unmarshalValueType_int _ _ _ _ _ hi, unmarshalValueType_nil]
    rfl
  | .Struct ms, fuel, henc, hfuel => by
    obtain ⟨f, rfl⟩ : ∃ f, fuel = f + 1 := ⟨fuel - 1, by simp only [SpecValue.nesting] at hfuel; omega⟩
    simp only [SpecValue.encodable] at henc
    have hms := unmarshal_marshal_members ms f [] henc
      (by simp only [SpecValue.nesting] at hfuel; omega)
    simp only [SpecValue.toValueType, marshalValueType, marshalStructValue, if_true,
      List.nil_append]
    rw [unmarshalValueType_struct _ _ _ _ _ hms, unmarshalValueType_nil]
    rfl
theorem unmarshal_marshal_members : ∀ (ms : List (String × SpecValue)) (fuel : Nat)
    (acc : List MemberType), membersEncodable ms = true →
    4 * membersNesting ms + 5 ≤ fuel →
    unmarshalStructType fuel (.mk acc) (marshalMembers (toMembers ms)) =
      .ok (.mk (acc ++ toMembers ms))
  | [], fuel, acc, _, hfuel => by
    obtain ⟨f, rfl⟩ : ∃ f, fuel = f + 1 := ⟨fuel - 1, by omega⟩
    simp only [toMembers, marshalMembers, List.append_nil]
    exact unmarshalStructType_nil f _
  | (n, v) :: rest, fuel, acc, henc, hfuel => by
    simp only [membersNesting] at hfuel
    obtain ⟨f, rfl⟩ : ∃ f, fuel = f + 4 := ⟨fuel - 4, by omega⟩
    simp only [membersEncodable, Bool.and_eq_true] at henc
    have hv := unmarshal_marshal_value v (f + 1) henc.1.2 (by omega)
    have hrest := unmarshal_marshal_members rest (f + 4) (acc ++ [.mk n v.toValueType]) henc.2
      (by omega)
    have hn : escapeText n = n := escapeText_of_valid n henc.1.1
    simp only [toMembers, marshalMembers, hn]
    rw [unmarshalStructType_member (f + 3) (.mk acc) _ _ _
      (unmarshalMembers_name_value f acc n _ _ hv), hrest]
    simp
end

mutual
theorem view_toValueType : ∀ (v : SpecValue), v.encodable = true →
    v.toValueType.view = some v
  | .String s, henc => by
    simp only [SpecValue.encodable, Bool.and_eq_true, bne_iff_ne, ne_eq] at henc
    simp [SpecValue.toValueType, ValueType.view, henc.1]
  | .Int i, henc => by
    simp only [SpecValue.encodable, Bool.and_eq_true, bne_iff_ne, ne_eq] at henc
    simp [SpecValue.toValueType, ValueType.view, henc.1.1]
  | .Struct ms, henc => by
    simp only [SpecValue.encodable] at henc
    simp [SpecValue.toValueType, ValueType.view, viewMembers_toMembers ms henc]
theorem viewMembers_toMembers : ∀ (ms : List (String × SpecValue)),
    membersEncodable ms = true → viewMembers (toMembers ms) = some ms
  | [], _ => by simp [toMembers, viewMembers]
  | (n, v) :: rest, henc => by
    simp only [membersEncodable, Bool.and_eq_true] at henc
    simp [toMembers, viewMembers, view_toValueType v henc.1.2, viewMembers_toMembers rest henc.2]
end

/-- C5, as stated, fails: the empty string and the integer 0 are both written as
an empty `<value>` element, which decodes to a `ValueType` with no branch
populated, so the empty string does not come back as a string. -/
theorem empty_string_not_round_trip :
    (SpecValue.String "").wellFormed = true ∧
    marshalValueType (SpecValue.String "").toValueType =
      marshalValueType (SpecValue.Int 0).toValueType ∧
    decodeValue (marshalValueType (SpecValue.String "").toValueType) = .ok ValueType.zero ∧
    ValueType.zero.populated = 0 ∧
    ¬ RoundTrip (SpecValue.String "") := by
  refine ⟨rfl, rfl, rfl, rfl, ?_⟩
  rintro ⟨w, hw, hview⟩
  have hz : decodeValue (marshalValueType (SpecValue.String "").toValueType) =
      .ok ValueType.zero := rfl
  rw [hz] at hw
  cases hw
  simp [ValueType.zero, ValueType.view] at hview

/-- C5, amended: a value in which no string is empty, no integer is zero, every
integer fits 64 bits, every character of a string or member name is an XML
character, and whose struct nesting stays within the decoder's depth limit, is
decoded from its encoding unchanged: the same branch, the same scalar content
and the same members in the same order. -/
theorem encodable_round_trip (v : SpecValue) (henc : v.encodable = true)
    (hdepth : 4 * v.nesting + 2 ≤ maxUnmarshalDepth) :
    decodeValue (marshalValueType v.toValueType) = .ok v.toValueType ∧ RoundTrip v := by
  have h := unmarshal_marshal_value v maxUnmarshalDepth henc hdepth
  exact ⟨h, v.toValueType, h, view_toValueType v henc⟩

/-- C5, amended, at a struct of a non-zero integer and a non-empty string. -/
theorem encodable_round_trip_witness :
    decodeValue (marshalValueType
      (SpecValue.Struct [("faultCode", .Int 400), ("faultString", .String "bad")]).toValueType) =
      .ok (SpecValue.Struct [("faultCode", .Int 400), ("faultString", .String "bad")]).toValueType ∧
    RoundTrip (SpecValue.Struct [("faultCode", .Int 400), ("faultString", .String "bad")]) :=
  encodable_round_trip (.Struct [("faultCode", .Int 400), ("faultString", .String "bad")])
    (by decide) (by decide)

end Xmlrpc
